import Mathlib

/-!
Verification of the core of the `smol` benchmark harness.

The development shallowly embeds the benchmark orchestration engine:

* `bench/lib/metrics.py`  — `Query`, `WorkloadResult`, `calculate_percentiles`;
* `bench/lib/regression.py` — `RegressionDetector.check` / `update_baseline`;
* `bench/lib/db.py`       — `DatabaseConnection.execute_with_stats`;
* `bench/lib/cache.py`    — `CacheController.flush_relation`;
* `bench/workloads/base.py` and `bench/runner.py` — the workload lifecycle
  (`WorkloadBase.run`) and the runner's per-workload failure boundary.

Python floats are modelled as rationals (`ℚ`), Python ints as `Int`/`Nat`,
JSON documents as an inductive `Json` type, and fallible calls either as
`Except` values or as an explicit success flag threaded through the state.
-/

namespace SmolBench

/-- JSON-ish values: models Python objects that appear in JSON documents
(`json.loads` output, `to_dict` output, workload `config` mappings).
Python distinguishes `int` from `float`; so do we (`int` vs `num`). -/
inductive Json where
  | null
  | bool (b : Bool)
  | int (n : Int)
  | num (q : ℚ)
  | str (s : String)
  | arr (elems : List Json)
  | obj (fields : List (String × Json))

/-- `Query` dataclass from `bench/lib/metrics.py`.  The Python field
`repeat` is a Lean keyword, hence `repeatCount`. -/
structure Query where
  id : String
  sql : String
  description : String
  repeatCount : Nat := 1
deriving Repr, DecidableEq

/-- `WorkloadResult` dataclass from `bench/lib/metrics.py`. -/
structure WorkloadResult where
  workload_id : String
  engine : String
  query_id : String
  cache_mode : String
  latency_p50_ms : ℚ
  latency_p95_ms : ℚ
  latency_p99_ms : ℚ
  latency_avg_ms : ℚ
  latency_min_ms : ℚ
  latency_max_ms : ℚ
  index_size_mb : ℚ
  build_time_ms : ℚ
  shared_hit : Int
  shared_read : Int
  rows_scanned : Int
  rows_returned : Int
  timestamp : String
  config : List (String × Json)

/-- `WorkloadResult.to_dict`: emits exactly the constructor's fields, in
source order, as a key/value document. -/
def WorkloadResult.to_dict (r : WorkloadResult) : List (String × Json) :=
  [ ("workload_id", .str r.workload_id)
  , ("engine", .str r.engine)
  , ("query_id", .str r.query_id)
  , ("cache_mode", .str r.cache_mode)
  , ("latency_p50_ms", .num r.latency_p50_ms)
  , ("latency_p95_ms", .num r.latency_p95_ms)
  , ("latency_p99_ms", .num r.latency_p99_ms)
  , ("latency_avg_ms", .num r.latency_avg_ms)
  , ("latency_min_ms", .num r.latency_min_ms)
  , ("latency_max_ms", .num r.latency_max_ms)
  , ("index_size_mb", .num r.index_size_mb)
  , ("build_time_ms", .num r.build_time_ms)
  , ("shared_hit", .int r.shared_hit)
  , ("shared_read", .int r.shared_read)
  , ("rows_scanned", .int r.rows_scanned)
  , ("rows_returned", .int r.rows_returned)
  , ("timestamp", .str r.timestamp)
  , ("config", .obj r.config) ]

def Json.asStr : Json → Option String
  | .str s => some s
  | _ => none

def Json.asNum : Json → Option ℚ
  | .num q => some q
  | _ => none

def Json.asInt : Json → Option Int
  | .int n => some n
  | _ => none

def Json.asObj : Json → Option (List (String × Json))
  | .obj fields => some fields
  | _ => none

/-- Keyword lookup in a key/value document (first binding wins, as in a
Python dict built left to right). -/
def lookupField (d : List (String × Json)) (k : String) : Option Json :=
  (d.find? (fun p => p.1 == k)).map (fun p => p.2)

def fieldStr (d : List (String × Json)) (k : String) : Option String :=
  (lookupField d k).bind Json.asStr

def fieldNum (d : List (String × Json)) (k : String) : Option ℚ :=
  (lookupField d k).bind Json.asNum

def fieldInt (d : List (String × Json)) (k : String) : Option Int :=
  (lookupField d k).bind Json.asInt

def fieldObj (d : List (String × Json)) (k : String) : Option (List (String × Json)) :=
  (lookupField d k).bind Json.asObj

/-- `WorkloadResult(**d)`: the update-baseline CLI path of `bench/runner.py`
rebuilds a `WorkloadResult` from a saved dictionary by keyword argument.
Returns `none` when a required field is missing or has the wrong shape
(Python raises `TypeError` there). -/
def WorkloadResult.fromDict (d : List (String × Json)) : Option WorkloadResult :=
  match fieldStr d "workload_id", fieldStr d "engine", fieldStr d "query_id",
      fieldStr d "cache_mode", fieldNum d "latency_p50_ms", fieldNum d "latency_p95_ms",
      fieldNum d "latency_p99_ms", fieldNum d "latency_avg_ms", fieldNum d "latency_min_ms",
      fieldNum d "latency_max_ms", fieldNum d "index_size_mb", fieldNum d "build_time_ms",
      fieldInt d "shared_hit", fieldInt d "shared_read", fieldInt d "rows_scanned",
      fieldInt d "rows_returned", fieldStr d "timestamp", fieldObj d "config" with
  | some workload_id, some engine, some query_id, some cache_mode,
    some latency_p50_ms, some latency_p95_ms, some latency_p99_ms, some latency_avg_ms,
    some latency_min_ms, some latency_max_ms, some index_size_mb, some build_time_ms,
    some shared_hit, some shared_read, some rows_scanned, some rows_returned,
    some timestamp, some config =>
    some (WorkloadResult.mk workload_id engine query_id cache_mode
      latency_p50_ms latency_p95_ms latency_p99_ms latency_avg_ms
      latency_min_ms latency_max_ms index_size_mb build_time_ms
      shared_hit shared_read rows_scanned rows_returned timestamp config)
  | _, _, _, _, _, _, _, _, _, _, _, _, _, _, _, _, _, _ => none

/-- Record returned by `calculate_percentiles`. -/
structure PercentileStats where
  p50 : ℚ
  p95 : ℚ
  p99 : ℚ
  avg : ℚ
  min : ℚ
  max : ℚ
deriving Repr, DecidableEq

/-- `int(n * q)` for the percentile fractions `q = p / 100` used by
`calculate_percentiles` (floor of `n * p / 100`). -/
def pctIndex (n p : ℕ) : ℕ :=
  n * p / 100

/-- `sorted(values)` of `calculate_percentiles`. -/
def sortedVals (values : List ℚ) : List ℚ :=
  values.insertionSort (· ≤ ·)

/-- Python `min(values)` over a non-empty list (`0` on `[]`, a branch
the source never takes). -/
def listMin : List ℚ → ℚ
  | [] => 0
  | x :: xs => xs.foldl min x

/-- Python `max(values)` over a non-empty list. -/
def listMax : List ℚ → ℚ
  | [] => 0
  | x :: xs => xs.foldl max x

/-- `calculate_percentiles` from `bench/lib/metrics.py`.  Out-of-bounds
indexing is modelled by `getD _ 0`; the bounds theorems below show the
default is never consulted on the taken branches. -/
def calculate_percentiles (values : List ℚ) : PercentileStats :=
  match values with
  | [] => { p50 := 0, p95 := 0, p99 := 0, avg := 0, min := 0, max := 0 }
  | _ :: _ =>
    let sorted_vals := sortedVals values
    let n := values.length
    { p50 := if n > 0 then sorted_vals.getD (pctIndex n 50) 0 else 0
    , p95 := if n > 1 then sorted_vals.getD (pctIndex n 95) 0
             else sorted_vals.getD (sorted_vals.length - 1) 0
    , p99 := if n > 2 then sorted_vals.getD (pctIndex n 99) 0
             else sorted_vals.getD (sorted_vals.length - 1) 0
    , avg := if n > 0 then values.sum / (n : ℚ) else 0
    , min := listMin values
    , max := listMax values }

/-! ## Regression detection (`bench/lib/regression.py`)

The baseline file is a JSON document `{"results": [...]}` whose entries
map a `workload_id` to aggregate metrics.  `Option` fields model the
Python `'key' in baseline_result` membership tests. -/

/-- One entry of the persisted baseline's `results` list. -/
structure BaselineEntry where
  workload_id : String
  latency_avg_ms : Option ℚ
  index_size_mb : Option ℚ
  build_time_ms : Option ℚ
deriving Repr, DecidableEq

/-- The whole baseline document (`self.baseline`); the detector holds
`Option BaselineFile`, `none` meaning no/corrupt baseline file. -/
structure BaselineFile where
  results : List BaselineEntry
deriving Repr, DecidableEq

/-- A regression record as produced by `RegressionDetector.check`. -/
structure Regression where
  workload : String
  metric : String
  baseline : ℚ
  current : ℚ
  regression_pct : ℚ
deriving Repr, DecidableEq

/-- The 15% regression threshold of `RegressionDetector.check`. -/
def threshold : ℚ := 15

/-- Grouping keys `(workload_id, engine)` in first-occurrence order,
exactly the iteration order of the Python dict `workload_stats`. -/
def groupKeys (results : List WorkloadResult) : List (String × String) :=
  results.foldl
    (fun ks r =>
      if (r.workload_id, r.engine) ∈ ks then ks else ks ++ [(r.workload_id, r.engine)])
    []

/-- The group of results stored under one key of `workload_stats`
(sublist of `results` in original order). -/
def groupGet (results : List WorkloadResult) (key : String × String) : List WorkloadResult :=
  results.filter (fun r => r.workload_id == key.1 && r.engine == key.2)

/-- `RegressionDetector._find_baseline_result`. -/
def find_baseline_result (entries : List BaselineEntry) (workload_id : String) :
    Option BaselineEntry :=
  entries.find? (fun e => e.workload_id == workload_id)

/-- `sum(r.latency_avg_ms for r in workload_results) / len(workload_results)`,
the pooled latency aggregate shared by `check` and `update_baseline`. -/
def poolLatency (wrs : List WorkloadResult) : ℚ :=
  (wrs.map (fun r => r.latency_avg_ms)).sum / (wrs.length : ℚ)

/-- The body of `check`'s loop for one `(workload_id, engine)` group:
skips non-smol engines and workloads without a baseline entry, then flags
latency and index-size regressions independently under a strict `>`
comparison against `baseline * (1 + threshold / 100)`. -/
def checkWorkload (entries : List BaselineEntry) (workload_id engine : String)
    (workload_results : List WorkloadResult) : List Regression :=
  if engine ≠ "smol" then []
  else
    match find_baseline_result entries workload_id with
    | none => []
    | some baseline_result =>
      let avg_latency := poolLatency workload_results
      let latency_regs : List Regression :=
        match baseline_result.latency_avg_ms with
        | none => []
        | some baseline_latency =>
          if avg_latency > baseline_latency * (1 + threshold / 100) then
            [{ workload := workload_id
             , metric := "latency_avg_ms"
             , baseline := baseline_latency
             , current := avg_latency
             , regression_pct := ((avg_latency - baseline_latency) / baseline_latency) * 100 }]
          else []
      let size_regs : List Regression :=
        match workload_results, baseline_result.index_size_mb with
        | r0 :: _, some baseline_size =>
          if r0.index_size_mb > baseline_size * (1 + threshold / 100) then
            [{ workload := workload_id
             , metric := "index_size_mb"
             , baseline := baseline_size
             , current := r0.index_size_mb
             , regression_pct := ((r0.index_size_mb - baseline_size) / baseline_size) * 100 }]
          else []
        | _, _ => []
      latency_regs ++ size_regs

/-- `RegressionDetector.check`: no baseline means no regressions;
otherwise every smol group is compared against its baseline entry. -/
def RegressionDetector.check (baseline : Option BaselineFile)
    (results : List WorkloadResult) : List Regression :=
  match baseline with
  | none => []
  | some bf =>
    (groupKeys results).flatMap
      (fun k => checkWorkload bf.results k.1 k.2 (groupGet results k))

/-- One baseline entry written by `update_baseline` for a smol group
(`none` for non-smol groups; the empty-group branch is unreachable
because every grouped key owns at least one result). -/
def mkBaselineEntry (results : List WorkloadResult) (k : String × String) :
    Option BaselineEntry :=
  if k.2 ≠ "smol" then none
  else
    match groupGet results k with
    | [] => none
    | r0 :: rest =>
      some { workload_id := k.1
           , latency_avg_ms := some (poolLatency (r0 :: rest))
           , index_size_mb := some r0.index_size_mb
           , build_time_ms := some r0.build_time_ms }

/-- `RegressionDetector.update_baseline`: recomputes the smol aggregates
for every group present and overwrites the whole baseline document. -/
def RegressionDetector.update_baseline (results : List WorkloadResult) : BaselineFile :=
  { results := (groupKeys results).filterMap (mkBaselineEntry results) }

/-! ## `DatabaseConnection.execute_with_stats` (`bench/lib/db.py`)

The subprocess boundary is abstracted: the EXPLAIN output text is given by
its parse (`none` when `json.loads` raises, i.e. empty or malformed
output), and the wall-clock duration of the fallback `execute_timed` call
is a parameter.  Python exceptions are an explicit `PyExc` error type; the
`except (json.JSONDecodeError, KeyError)` clause catches exactly those
two, every other exception propagates. -/

inductive PyExc where
  | jsonDecodeError
  | keyError
  | indexError
  | typeError
  | attributeError
  | runtimeError
deriving Repr, DecidableEq

/-- Python `data[0]` on a parsed JSON value: first element of a list,
`IndexError` on an empty list, `KeyError` on a dict (JSON object keys are
strings, never the int `0`), `TypeError` otherwise. -/
def jsonIndex0 : Json → Except PyExc Json
  | .arr [] => .error .indexError
  | .arr (x :: _) => .ok x
  | .obj _ => .error .keyError
  | _ => .error .typeError

/-- Python `j['Plan']`-style string subscription: `KeyError` when the key
is absent, `TypeError` on a non-dict. -/
def jsonKey (j : Json) (k : String) : Except PyExc Json :=
  match j with
  | .obj fields =>
    match fields.find? (fun p => p.1 == k) with
    | some p => .ok p.2
    | none => .error .keyError
  | _ => .error .typeError

/-- Python `j.get(k, d)`: never raises on a dict; `AttributeError` on a
non-dict value. -/
def jsonGetD (j : Json) (k : String) (d : Json) : Except PyExc Json :=
  match j with
  | .obj fields => .ok (((fields.find? (fun p => p.1 == k)).map (fun p => p.2)).getD d)
  | _ => .error .attributeError

/-- The `stats` dict built by `execute_with_stats`; values are stored
exactly as extracted from the JSON document (Python does not coerce). -/
structure PlanStats where
  exec_time : Json
  plan_time : Json
  shared_hit : Json
  shared_read : Json
  rows : Json

/-- The body of the `try:` block of `execute_with_stats`: `data[0]`,
`data[0]['Plan']`, then the five `.get` extractions, in source order. -/
def tryExtract (data : Json) : Except PyExc PlanStats := do
  let d0 ← jsonIndex0 data
  let plan ← jsonKey d0 "Plan"
  let et ← jsonGetD d0 "Execution Time" (.int 0)
  let pt ← jsonGetD d0 "Planning Time" (.int 0)
  let sh ← jsonGetD plan "Shared Hit Blocks" (.int 0)
  let sr ← jsonGetD plan "Shared Read Blocks" (.int 0)
  let rows ← jsonGetD plan "Actual Rows" (.int 0)
  pure (PlanStats.mk et pt sh sr rows)

/-- `DatabaseConnection.execute_with_stats`.

* `parsed` — result of `json.loads` on the EXPLAIN output (`none`: the
  output was empty or malformed and `json.loads` raised);
* `elapsed` — wall-clock milliseconds measured by the fallback
  `execute_timed` call;
* `timedFails` / `actualFails` — whether the two plain `execute` calls
  (fallback timing, and re-running the query for its rows) raise;
* `actualResult` — output of the successful re-run.

Only `json.JSONDecodeError` and `KeyError` are caught; the fallback
returns the wall-clock time with zeroed buffer statistics. -/
def execute_with_stats (parsed : Option Json) (elapsed : ℚ)
    (timedFails actualFails : Bool) (actualResult : String) :
    Except PyExc (String × PlanStats) :=
  let attempt : Except PyExc (String × PlanStats) :=
    match parsed with
    | none => .error .jsonDecodeError
    | some data =>
      match tryExtract data with
      | .error e => .error e
      | .ok stats =>
        if actualFails then .error .runtimeError else .ok (actualResult, stats)
  match attempt with
  | .ok v => .ok v
  | .error e =>
    if e = .jsonDecodeError ∨ e = .keyError then
      if timedFails then .error .runtimeError
      else .ok ("", PlanStats.mk (.num elapsed) (.int 0) (.int 0) (.int 0) (.int 0))
    else .error e

/-! ## `CacheController.flush_relation` (`bench/lib/cache.py`)

`execFails sql` abstracts whether `self.db.execute(sql)` raises.  The
trace records every statement the call hands to the database, in order,
plus the number of warning lines the call logs (the source contains no
logging statement at all, so that count is zero on every path). -/

/-- What one `flush_relation` call did. -/
structure FlushTrace where
  executed : List String
  warnings : Nat
deriving Repr, DecidableEq

/-- The eviction statement of the `cold` branch. -/
def evictSql (relation : String) : String :=
  "SELECT pg_buffercache_evict_relation('" ++ relation ++ "'::regclass);"

/-- The full-table touch of the `cold` branch. -/
def countSql (relation : String) : String :=
  "SELECT count(*) FROM " ++ relation ++ ";"

/-- `CacheController.flush_relation`: `hot` is a no-op; otherwise a
checkpoint and a plan discard (failures there propagate); `cold`
additionally attempts the best-effort eviction and a touch-then-checkpoint,
both wrapped in swallow-all-errors guards. -/
def CacheController.flush_relation (has_buffercache : Bool)
    (execFails : String → Bool) (relation mode : String) :
    Except Unit FlushTrace :=
  if mode = "hot" then .ok { executed := [], warnings := 0 }
  else if execFails "CHECKPOINT;" then .error ()
  else if execFails "DISCARD PLANS;" then .error ()
  else
    let base := ["CHECKPOINT;", "DISCARD PLANS;"]
    if mode = "cold" then
      let afterEvict := if has_buffercache then base ++ [evictSql relation] else base
      let afterTouch :=
        if execFails (countSql relation) then afterEvict ++ [countSql relation]
        else afterEvict ++ [countSql relation, "CHECKPOINT;"]
      .ok { executed := afterTouch, warnings := 0 }
    else .ok { executed := base, warnings := 0 }

/-! ## Workload lifecycle (`bench/workloads/base.py`, `bench/runner.py`)

`WorkloadBase.run` is straight-line code with nested loops and no
`try`/`finally`; each lifecycle step is a database interaction that may
raise.  The embedding threads an explicit state (result list, table
existence, whether cleanup's DROP ran) together with a success flag:
`false` means an exception is propagating, which aborts the remaining
steps exactly as in Python.  `oracle a = true` means step `a` raises. -/

/-- One fallible lifecycle step. -/
inductive Action where
  | generateData
  | buildIndex (engine : String)
  | execQuery (engine : String) (query_id : String) (cache_mode : String)
  | cleanup
deriving Repr, DecidableEq

/-- One appended entry of `run`'s `results` list, reduced to the fields
the ordering claim is about. -/
structure ResultEntry where
  engine : String
  query_id : String
  cache_mode : String
deriving Repr, DecidableEq

/-- Observable state of a workload's run. -/
structure RunState where
  results : List ResultEntry
  tableExists : Bool
  cleanupRan : Bool
deriving Repr, DecidableEq

/-- State before `run()`: no results; the workload's backing table may be
absent (fresh run). -/
def initState : RunState :=
  { results := [], tableExists := false, cleanupRan := false }

/-- Effect of a successfully completed step: `generate_data` drops and
recreates the table, `execute_query` appends a result, `cleanup` drops
the table (`DROP TABLE IF EXISTS ... CASCADE`). -/
def applyAction : Action → RunState → RunState
  | .generateData, s => { s with tableExists := true }
  | .buildIndex _, s => s
  | .execQuery e q m, s => { s with results := s.results ++ [ResultEntry.mk e q m] }
  | .cleanup, s => { s with tableExists := false, cleanupRan := true }

/-- Attempt one step: a raising step (`oracle a = true`) leaves the state
unchanged and starts propagating the exception. -/
def step (oracle : Action → Bool) (a : Action) (s : RunState) : RunState × Bool :=
  if oracle a then (s, false) else (applyAction a s, true)

/-- Inner loop of `run`: `for cache_mode in self.config.get('cache_modes', ['hot'])`. -/
def runModes (oracle : Action → Bool) (engine query_id : String) :
    List String → RunState → RunState × Bool
  | [], s => (s, true)
  | m :: rest, s =>
    match step oracle (.execQuery engine query_id m) s with
    | (s', true) => runModes oracle engine query_id rest s'
    | (s', false) => (s', false)

/-- Middle loop of `run`: `for query in self.get_queries()`. -/
def runQueries (oracle : Action → Bool) (engine : String) :
    List Query → List String → RunState → RunState × Bool
  | [], _, s => (s, true)
  | q :: rest, modes, s =>
    match runModes oracle engine q.id modes s with
    | (s', true) => runQueries oracle engine rest modes s'
    | (s', false) => (s', false)

/-- Outer loop of `run`: `for engine in ['btree', 'smol']`, building the
engine's index before its queries. -/
def runEngines (oracle : Action → Bool) :
    List String → List Query → List String → RunState → RunState × Bool
  | [], _, _, s => (s, true)
  | e :: rest, queries, modes, s =>
    match step oracle (.buildIndex e) s with
    | (s1, true) =>
      match runQueries oracle e queries modes s1 with
      | (s2, true) => runEngines oracle rest queries modes s2
      | (s2, false) => (s2, false)
    | (s1, false) => (s1, false)

/-- `WorkloadBase.run`: generate data, measure both engines, then clean
up — with no exception handler anywhere in the method. -/
def WorkloadBase.run (oracle : Action → Bool) (queries : List Query)
    (modes : List String) (s : RunState) : RunState × Bool :=
  match step oracle .generateData s with
  | (s1, true) =>
    match runEngines oracle ["btree", "smol"] queries modes s1 with
    | (s2, true) => step oracle .cleanup s2
    | (s2, false) => (s2, false)
  | (s1, false) => (s1, false)

/-- The result list `run()` hands back to its caller: available only when
the whole lifecycle (cleanup included) completed without an exception. -/
def runResults (oracle : Action → Bool) (queries : List Query)
    (modes : List String) : Option (List ResultEntry) :=
  match WorkloadBase.run oracle queries modes initState with
  | (s, true) => some s.results
  | (_, false) => none

/-- The runner's per-workload boundary (`bench/runner.py`, `run`): each
workload is run inside `try/except`; on an exception the partial results
are dropped and the loop continues.  Returns the collected results and
each workload's final state. -/
def BenchmarkRunner.runWorkloads (oracle : Action → Bool)
    (workloads : List (List Query × List String)) :
    List ResultEntry × List RunState :=
  workloads.foldl
    (fun acc w =>
      match WorkloadBase.run oracle w.1 w.2 initState with
      | (s, true) => (acc.1 ++ s.results, acc.2 ++ [s])
      | (s, false) => (acc.1, acc.2 ++ [s]))
    ([], [])

/-! ## Helper lemmas -/

theorem length_sortedVals (values : List ℚ) :
    (sortedVals values).length = values.length :=
  (List.perm_insertionSort _ values).length_eq

theorem mem_of_mem_sortedVals {x : ℚ} {values : List ℚ}
    (h : x ∈ sortedVals values) : x ∈ values :=
  (List.perm_insertionSort _ values).mem_iff.mp h

theorem sorted_sortedVals (values : List ℚ) :
    (sortedVals values).Sorted (· ≤ ·) :=
  List.sorted_insertionSort _ values

theorem pctIndex_lt {n : ℕ} (p : ℕ) (hn : 1 ≤ n) (hp : p < 100) :
    pctIndex n p < n := by
  have h1 : n * p ≤ n * 99 := Nat.mul_le_mul_left n (by omega)
  have h2 : n * 99 < n * 100 := by omega
  exact (Nat.div_lt_iff_lt_mul (by norm_num)).mpr (by omega)

theorem pctIndex_mono {n p q : ℕ} (h : p ≤ q) : pctIndex n p ≤ pctIndex n q :=
  Nat.div_le_div_right (Nat.mul_le_mul_left n h)

theorem getD_mem_of_lt {l : List ℚ} {i : ℕ} (h : i < l.length) :
    l.getD i 0 ∈ l := by
  rw [List.getD_eq_getElem l 0 h]
  exact List.getElem_mem h

theorem sortedVals_getD_mono (values : List ℚ) {i j : ℕ} (hij : i ≤ j)
    (hj : j < (sortedVals values).length) :
    (sortedVals values).getD i 0 ≤ (sortedVals values).getD j 0 := by
  have hi : i < (sortedVals values).length := lt_of_le_of_lt hij hj
  rw [List.getD_eq_getElem _ 0 hi, List.getD_eq_getElem _ 0 hj]
  exact List.Sorted.rel_get_of_le (sorted_sortedVals values)
    (a := ⟨i, hi⟩) (b := ⟨j, hj⟩) hij

theorem le_foldl_max (xs : List ℚ) (a : ℚ) : a ≤ xs.foldl max a := by
  induction xs generalizing a with
  | nil => exact le_refl a
  | cons y ys ih => exact le_trans (le_max_left a y) (ih (max a y))

theorem mem_le_foldl_max (xs : List ℚ) (a x : ℚ) (h : x ∈ xs) :
    x ≤ xs.foldl max a := by
  induction xs generalizing a with
  | nil => cases h
  | cons y ys ih =>
    rcases List.mem_cons.mp h with rfl | h'
    · exact le_trans (le_max_right a x) (le_foldl_max ys (max a x))
    · exact ih (max a y) h'

theorem foldl_min_le (xs : List ℚ) (a : ℚ) : xs.foldl min a ≤ a := by
  induction xs generalizing a with
  | nil => exact le_refl a
  | cons y ys ih => exact le_trans (ih (min a y)) (min_le_left a y)

theorem foldl_min_le_mem (xs : List ℚ) (a x : ℚ) (h : x ∈ xs) :
    xs.foldl min a ≤ x := by
  induction xs generalizing a with
  | nil => cases h
  | cons y ys ih =>
    rcases List.mem_cons.mp h with rfl | h'
    · exact le_trans (foldl_min_le ys (min a x)) (min_le_right a x)
    · exact ih (min a y) h'

theorem le_listMax {x : ℚ} {values : List ℚ} (h : x ∈ values) :
    x ≤ listMax values := by
  match values, h with
  | v :: vs, h =>
    rcases List.mem_cons.mp h with rfl | h'
    · exact le_foldl_max vs x
    · exact mem_le_foldl_max vs v x h'

theorem listMin_le {x : ℚ} {values : List ℚ} (h : x ∈ values) :
    listMin values ≤ x := by
  match values, h with
  | v :: vs, h =>
    rcases List.mem_cons.mp h with rfl | h'
    · exact foldl_min_le vs x
    · exact foldl_min_le_mem vs v x h'

theorem avg_le_listMax (values : List ℚ) (h : values ≠ []) :
    values.sum / (values.length : ℚ) ≤ listMax values := by
  have hn : 0 < (values.length : ℚ) := by
    exact_mod_cast List.length_pos.mpr h
  rw [div_le_iff₀ hn]
  have hb := List.sum_le_card_nsmul values (listMax values) (fun x hx => le_listMax hx)
  calc values.sum ≤ values.length • listMax values := hb
    _ = listMax values * (values.length : ℚ) := by rw [nsmul_eq_mul]; ring

theorem listMin_le_avg (values : List ℚ) (h : values ≠ []) :
    listMin values ≤ values.sum / (values.length : ℚ) := by
  have hn : 0 < (values.length : ℚ) := by
    exact_mod_cast List.length_pos.mpr h
  rw [le_div_iff₀ hn]
  have hb := List.card_nsmul_le_sum values (listMin values) (fun x hx => listMin_le hx)
  calc listMin values * (values.length : ℚ)
      = values.length • listMin values := by rw [nsmul_eq_mul]; ring
    _ ≤ values.sum := hb

/-! ## Claim theorems -/

/-- C7: for a single-sample list `[x]`, `calculate_percentiles` returns
`p50 = p95 = p99 = avg = min = max = x` (the fallback branches for `p95`
and `p99` index the last — only — element). -/
theorem calculate_percentiles_single (x : ℚ) :
    calculate_percentiles [x] = ⟨x, x, x, x, x, x⟩ := by
  simp [calculate_percentiles, sortedVals, List.insertionSort, List.orderedInsert,
    pctIndex, listMin, listMax]

/-- C9: rebuilding a `WorkloadResult` from its `to_dict` output (the
update-baseline CLI path) restores every field: the serialization is a
lossless round-trip. -/
theorem fromDict_to_dict_roundtrip (r : WorkloadResult) :
    WorkloadResult.fromDict (WorkloadResult.to_dict r) = some r := rfl

/-- C10: for every non-empty sample list, the sort indices
`floor(n*0.50)`, `floor(n*0.95)` (branch taken only when `n > 1`) and
`floor(n*0.99)` (branch taken only when `n > 2`) are in bounds for the
sorted list, so no branch of `calculate_percentiles` can perform an
out-of-range access. -/
theorem percentile_indices_in_bounds (values : List ℚ) (h : values ≠ []) :
    pctIndex values.length 50 < (sortedVals values).length ∧
    (values.length > 1 → pctIndex values.length 95 < (sortedVals values).length) ∧
    (values.length > 2 → pctIndex values.length 99 < (sortedVals values).length) := by
  have hn : 1 ≤ values.length := List.length_pos.mpr h
  rw [length_sortedVals]
  exact ⟨pctIndex_lt 50 hn (by norm_num),
    fun _ => pctIndex_lt 95 hn (by norm_num),
    fun _ => pctIndex_lt 99 hn (by norm_num)⟩

/-- Witness for C10 at the concrete list `[1, 2]`. -/
theorem percentile_indices_in_bounds_witness :
    ([1, 2] : List ℚ) ≠ [] ∧
    (pctIndex ([1, 2] : List ℚ).length 50 < (sortedVals [1, 2]).length ∧
     (([1, 2] : List ℚ).length > 1 →
       pctIndex ([1, 2] : List ℚ).length 95 < (sortedVals [1, 2]).length) ∧
     (([1, 2] : List ℚ).length > 2 →
       pctIndex ([1, 2] : List ℚ).length 99 < (sortedVals [1, 2]).length)) :=
  ⟨List.cons_ne_nil 1 [2],
   percentile_indices_in_bounds [1, 2] (List.cons_ne_nil 1 [2])⟩

/-- C4: when the EXPLAIN output is empty or unparseable (`json.loads`
raises, modelled by `parsed = none`) and the fallback timing query runs,
`execute_with_stats` returns — it does not raise — a tuple whose stats
carry `shared_hit = 0`, `shared_read = 0` and a non-negative wall-clock
`exec_time`. -/
theorem execute_with_stats_degraded (elapsed : ℚ) (hel : 0 ≤ elapsed)
    (actualFails : Bool) (actualResult : String) :
    ∃ stats : PlanStats,
      execute_with_stats none elapsed false actualFails actualResult =
        .ok ("", stats) ∧
      stats.shared_hit = .int 0 ∧ stats.shared_read = .int 0 ∧
      ∃ t : ℚ, stats.exec_time = .num t ∧ 0 ≤ t :=
  ⟨PlanStats.mk (.num elapsed) (.int 0) (.int 0) (.int 0) (.int 0),
   rfl, rfl, rfl, elapsed, rfl, hel⟩

/-- Witness for C4 at `elapsed = 1`. -/
theorem execute_with_stats_degraded_witness :
    (0 : ℚ) ≤ 1 ∧
    ∃ stats : PlanStats,
      execute_with_stats none 1 false false "" = .ok ("", stats) ∧
      stats.shared_hit = .int 0 ∧ stats.shared_read = .int 0 ∧
      ∃ t : ℚ, stats.exec_time = .num t ∧ 0 ≤ t :=
  ⟨by norm_num, execute_with_stats_degraded 1 (by norm_num) false ""⟩

/-- C8 (counterexample): with the eviction extension unavailable and a
functioning database, a `cold` flush returns normally but logs zero
warnings — not exactly one, as the claim asserts (`flush_relation`
contains no logging statement at all). -/
theorem flush_cold_warning_counterexample :
    (CacheController.flush_relation false (fun _ => false) "bench_t" "cold").toOption.map
        FlushTrace.warnings = some 0 ∧
    (CacheController.flush_relation false (fun _ => false) "bench_t" "cold").toOption.map
        FlushTrace.warnings ≠ some 1 := by
  constructor
  · rfl
  · intro h
    rw [(rfl : (CacheController.flush_relation false (fun _ => false) "bench_t" "cold").toOption.map
        FlushTrace.warnings = some 0)] at h
    exact Nat.zero_ne_one (Option.some.inj h)

/-- C8 (amended): requesting `cold` mode when the eviction extension is
unavailable still returns a result — provided the unconditional
checkpoint and plan-discard statements succeed — and logs no warning:
the degradation is silent. -/
theorem flush_cold_without_extension_silent (execFails : String → Bool)
    (relation : String)
    (h1 : execFails "CHECKPOINT;" = false)
    (h2 : execFails "DISCARD PLANS;" = false) :
    ∃ tr : FlushTrace,
      CacheController.flush_relation false execFails relation "cold" = .ok tr ∧
      tr.warnings = 0 := by
  unfold CacheController.flush_relation
  rw [if_neg (by decide : ¬ ("cold" : String) = "hot"), h1, h2]
  simp only [Bool.false_eq_true, if_false, if_pos rfl]
  cases hc : execFails (countSql relation) <;> simp [hc]

/-- Witness for C8's amended theorem: a database where every statement
succeeds. -/
theorem flush_cold_without_extension_silent_witness :
    (fun _ : String => false) "CHECKPOINT;" = false ∧
    (fun _ : String => false) "DISCARD PLANS;" = false ∧
    ∃ tr : FlushTrace,
      CacheController.flush_relation false (fun _ => false) "bench_t" "cold" = .ok tr ∧
      tr.warnings = 0 :=
  ⟨rfl, rfl, flush_cold_without_extension_silent (fun _ => false) "bench_t" rfl rfl⟩

/-- A single smol result whose pooled latency and index size are the two
given values (used to probe the regression threshold). -/
def mkSmolResult (wid : String) (lat size : ℚ) : WorkloadResult :=
  { workload_id := wid, engine := "smol", query_id := "q1", cache_mode := "hot",
    latency_p50_ms := lat, latency_p95_ms := lat, latency_p99_ms := lat,
    latency_avg_ms := lat, latency_min_ms := lat, latency_max_ms := lat,
    index_size_mb := size, build_time_ms := 0, shared_hit := 0, shared_read := 0,
    rows_scanned := 0, rows_returned := 0, timestamp := "", config := [] }

/-- A baseline file holding one entry with the given latency and size
aggregates. -/
def oneEntryBaseline (wid : String) (b : ℚ) : BaselineFile :=
  { results := [{ workload_id := wid, latency_avg_ms := some b,
                  index_size_mb := some b, build_time_ms := some 0 }] }

/-- C1: the regression comparison is strict.  A smol result whose pooled
latency and index size sit exactly 15.0% above baseline is not flagged;
one 15.01% above baseline is flagged for both metrics. -/
theorem check_threshold_strict (b : ℚ) (hb : 0 < b) :
    RegressionDetector.check (some (oneEntryBaseline "w" b))
        [mkSmolResult "w" (b * (115 / 100)) (b * (115 / 100))] = [] ∧
    (RegressionDetector.check (some (oneEntryBaseline "w" b))
        [mkSmolResult "w" (b * (11501 / 10000)) (b * (11501 / 10000))]).map
      (fun reg => reg.metric) = ["latency_avg_ms", "index_size_mb"] := by
  have hno : ¬ (b * (115 / 100) > b * (1 + threshold / 100)) := by
    unfold threshold
    norm_num
  have hyes : b * (11501 / 10000) > b * (1 + threshold / 100) := by
    unfold threshold
    rw [gt_iff_lt]
    apply mul_lt_mul_of_pos_left ?_ hb
    norm_num
  constructor
  · simp [RegressionDetector.check, groupKeys, groupGet, checkWorkload,
      find_baseline_result, poolLatency, oneEntryBaseline, mkSmolResult, hno]
  · simp [RegressionDetector.check, groupKeys, groupGet, checkWorkload,
      find_baseline_result, poolLatency, oneEntryBaseline, mkSmolResult, hyes]

/-- Witness for C1 at baseline value `b = 1`. -/
theorem check_threshold_strict_witness :
    (0 : ℚ) < 1 ∧
    (RegressionDetector.check (some (oneEntryBaseline "w" 1))
        [mkSmolResult "w" (1 * (115 / 100)) (1 * (115 / 100))] = [] ∧
     (RegressionDetector.check (some (oneEntryBaseline "w" 1))
        [mkSmolResult "w" (1 * (11501 / 10000)) (1 * (11501 / 10000))]).map
       (fun reg => reg.metric) = ["latency_avg_ms", "index_size_mb"]) :=
  ⟨by norm_num, check_threshold_strict 1 (by norm_num)⟩

theorem flatMap_nil_of_forall {α β : Type} (l : List α) (f : α → List β)
    (h : ∀ x ∈ l, f x = []) : l.flatMap f = [] := by
  induction l with
  | nil => rfl
  | cons x xs ih =>
    rw [List.flatMap_cons, h x (List.mem_cons_self x xs), List.nil_append]
    exact ih (fun y hy => h y (List.mem_cons_of_mem x hy))

theorem groupKeys_foldl_mem (R : List WorkloadResult) :
    ∀ (acc : List (String × String)) (k : String × String),
      k ∈ R.foldl (fun ks r =>
        if (r.workload_id, r.engine) ∈ ks then ks
        else ks ++ [(r.workload_id, r.engine)]) acc →
      k ∈ acc ∨ ∃ r ∈ R, (r.workload_id, r.engine) = k := by
  induction R with
  | nil => intro acc k h; exact Or.inl h
  | cons r rest ih =>
    intro acc k h
    rw [List.foldl_cons] at h
    rcases ih _ k h with h' | ⟨r', hr', hk⟩
    · by_cases hmem : (r.workload_id, r.engine) ∈ acc
      · rw [if_pos hmem] at h'
        exact Or.inl h'
      · rw [if_neg hmem] at h'
        rcases List.mem_append.mp h' with h'' | h''
        · exact Or.inl h''
        · exact Or.inr ⟨r, List.mem_cons_self r rest, (List.mem_singleton.mp h'').symm⟩
    · exact Or.inr ⟨r', List.mem_cons_of_mem r hr', hk⟩

theorem exists_mem_of_mem_groupKeys {R : List WorkloadResult}
    {k : String × String} (h : k ∈ groupKeys R) :
    ∃ r ∈ R, (r.workload_id, r.engine) = k := by
  rcases groupKeys_foldl_mem R [] k h with h' | h'
  · cases h'
  · exact h'

theorem groupGet_ne_nil {R : List WorkloadResult} {k : String × String}
    (h : k ∈ groupKeys R) : groupGet R k ≠ [] := by
  obtain ⟨r, hrR, hk⟩ := exists_mem_of_mem_groupKeys h
  have hmem : r ∈ groupGet R k := by
    unfold groupGet
    rw [List.mem_filter]
    refine ⟨hrR, ?_⟩
    cases hk
    simp
  exact List.ne_nil_of_mem hmem

theorem mkBaselineEntry_workload_id {R : List WorkloadResult}
    {k : String × String} {e : BaselineEntry}
    (h : mkBaselineEntry R k = some e) : e.workload_id = k.1 := by
  unfold mkBaselineEntry at h
  split at h
  · cases h
  · split at h
    · cases h
    · cases h
      rfl

theorem find_entry_of_smol_key (R : List WorkloadResult) :
    ∀ (keys : List (String × String)) (wid : String),
      (wid, "smol") ∈ keys →
      (∀ k ∈ keys, groupGet R k ≠ []) →
      find_baseline_result (keys.filterMap (mkBaselineEntry R)) wid =
        mkBaselineEntry R (wid, "smol") := by
  intro keys
  induction keys with
  | nil => intro wid h _; cases h
  | cons k rest ih =>
    intro wid hmem hne
    by_cases hk : k = (wid, "smol")
    · subst hk
      have hgne := hne (wid, "smol") (List.mem_cons_self _ _)
      obtain ⟨r0, rest', hgg⟩ : ∃ r0 rest', groupGet R (wid, "smol") = r0 :: rest' := by
        cases hg : groupGet R (wid, "smol") with
        | nil => exact absurd hg hgne
        | cons a l => exact ⟨a, l, rfl⟩
      have hmk : mkBaselineEntry R (wid, "smol") =
          some { workload_id := wid
               , latency_avg_ms := some (poolLatency (r0 :: rest'))
               , index_size_mb := some r0.index_size_mb
               , build_time_ms := some r0.build_time_ms } := by
        simp [mkBaselineEntry, hgg]
      rw [List.filterMap_cons, hmk]
      unfold find_baseline_result
      rw [List.find?_cons_of_pos _ (by simp)]
    · have hmem' : (wid, "smol") ∈ rest := by
        rcases List.mem_cons.mp hmem with h | h
        · exact absurd h.symm hk
        · exact h
      have hne' : ∀ k' ∈ rest, groupGet R k' ≠ [] :=
        fun k' hk' => hne k' (List.mem_cons_of_mem k hk')
      rw [List.filterMap_cons]
      cases hmk : mkBaselineEntry R k with
      | none => exact ih wid hmem' hne'
      | some e =>
        have hwid : e.workload_id = k.1 := mkBaselineEntry_workload_id hmk
        have hk1 : k.1 ≠ wid := by
          intro hw
          apply hk
          have hsm : k.2 = "smol" := by
            by_contra hsm
            rw [mkBaselineEntry, if_pos hsm] at hmk
            cases hmk
          obtain ⟨ka, kb⟩ := k
          simp only at hw hsm
          rw [hw, hsm]
        unfold find_baseline_result
        rw [List.find?_cons_of_neg _ (by simp [hwid, hk1])]
        exact ih wid hmem' hne'

theorem poolLatency_nonneg {wrs : List WorkloadResult}
    (h : ∀ r ∈ wrs, 0 ≤ r.latency_avg_ms) : 0 ≤ poolLatency wrs := by
  unfold poolLatency
  apply div_nonneg
  · apply List.sum_nonneg
    intro x hx
    obtain ⟨r, hr, rfl⟩ := List.mem_map.mp hx
    exact h r hr
  · exact_mod_cast Nat.zero_le _

theorem not_self_regression {c : ℚ} (hc : 0 ≤ c) :
    ¬ (c > c * (1 + threshold / 100)) := by
  have hle : c ≤ c * (1 + threshold / 100) := by
    unfold threshold
    nlinarith
  exact not_lt.mpr hle

/-- C2 (amended): `update_baseline(R)` followed by `check(R)` yields zero
regressions whenever every result's pooled metrics are non-negative (as
every measured latency and index size is); the current aggregate then
equals the baseline aggregate for every metric and the strict threshold
comparison cannot fire. -/
theorem update_then_check_no_regressions (R : List WorkloadResult)
    (hlat : ∀ r ∈ R, 0 ≤ r.latency_avg_ms)
    (hsize : ∀ r ∈ R, 0 ≤ r.index_size_mb) :
    RegressionDetector.check (some (RegressionDetector.update_baseline R)) R = [] := by
  simp only [RegressionDetector.check]
  apply flatMap_nil_of_forall
  intro k hk
  obtain ⟨wid, eng⟩ := k
  by_cases hsm : eng = "smol"
  · subst hsm
    have hgne : groupGet R (wid, "smol") ≠ [] := groupGet_ne_nil hk
    obtain ⟨r0, rest', hgg⟩ : ∃ r0 rest', groupGet R (wid, "smol") = r0 :: rest' := by
      cases hg : groupGet R (wid, "smol") with
      | nil => exact absurd hg hgne
      | cons a l => exact ⟨a, l, rfl⟩
    have hfind : find_baseline_result (RegressionDetector.update_baseline R).results wid =
        mkBaselineEntry R (wid, "smol") := by
      simp only [RegressionDetector.update_baseline]
      exact find_entry_of_smol_key R (groupKeys R) wid hk
        (fun k' hk' => groupGet_ne_nil hk')
    have hmk : mkBaselineEntry R (wid, "smol") =
        some { workload_id := wid
             , latency_avg_ms := some (poolLatency (r0 :: rest'))
             , index_size_mb := some r0.index_size_mb
             , build_time_ms := some r0.build_time_ms } := by
      simp [mkBaselineEntry, hgg]
    have hmemR : ∀ r ∈ r0 :: rest', r ∈ R := by
      intro r hr
      rw [← hgg] at hr
      exact (List.mem_filter.mp hr).1
    have hlat0 : 0 ≤ poolLatency (r0 :: rest') :=
      poolLatency_nonneg (fun r hr => hlat r (hmemR r hr))
    have hsize0 : 0 ≤ r0.index_size_mb :=
      hsize r0 (hmemR r0 (List.mem_cons_self r0 rest'))
    simp only [checkWorkload, hfind, hmk, hgg]
    rw [if_neg (by simp)]
    simp [if_neg (not_self_regression hlat0), if_neg (not_self_regression hsize0)]
  · simp [checkWorkload, hsm]

/-- Witness for C2's amended theorem at a concrete one-result list. -/
theorem update_then_check_no_regressions_witness :
    (∀ r ∈ [mkSmolResult "w" 2 3], 0 ≤ r.latency_avg_ms) ∧
    (∀ r ∈ [mkSmolResult "w" 2 3], 0 ≤ r.index_size_mb) ∧
    RegressionDetector.check
      (some (RegressionDetector.update_baseline [mkSmolResult "w" 2 3]))
      [mkSmolResult "w" 2 3] = [] := by
  have h1 : ∀ r ∈ [mkSmolResult "w" 2 3], 0 ≤ r.latency_avg_ms := by
    intro r hr
    rw [List.mem_singleton.mp hr]
    norm_num [mkSmolResult]
  have h2 : ∀ r ∈ [mkSmolResult "w" 2 3], 0 ≤ r.index_size_mb := by
    intro r hr
    rw [List.mem_singleton.mp hr]
    norm_num [mkSmolResult]
  exact ⟨h1, h2, update_then_check_no_regressions [mkSmolResult "w" 2 3] h1 h2⟩

/-- A syntactically valid `WorkloadResult` with a negative pooled latency
(nothing in the data model rules it out; the update-baseline CLI path will
happily construct it from a results file). -/
def negLatencyResult : WorkloadResult :=
  { workload_id := "w", engine := "smol", query_id := "q1", cache_mode := "hot",
    latency_p50_ms := -1, latency_p95_ms := -1, latency_p99_ms := -1,
    latency_avg_ms := -1, latency_min_ms := -1, latency_max_ms := -1,
    index_size_mb := 1, build_time_ms := 1, shared_hit := 0, shared_read := 0,
    rows_scanned := 0, rows_returned := 0, timestamp := "", config := [] }

/-- C2 (counterexample): the round-trip law fails as universally stated.
For a result with `latency_avg_ms = -1`, the baseline stores `-1` and the
check compares `-1 > -1 * 1.15 = -1.15`, which is true — a "regression"
is flagged even though current equals baseline. -/
theorem update_then_check_counterexample :
    RegressionDetector.check
      (some (RegressionDetector.update_baseline [negLatencyResult]))
      [negLatencyResult] ≠ [] := by
  norm_num [RegressionDetector.check, RegressionDetector.update_baseline, groupKeys,
    groupGet, checkWorkload, find_baseline_result, poolLatency, mkBaselineEntry,
    threshold, negLatencyResult]

theorem runModes_ok {oracle : Action → Bool} {e qid : String} :
    ∀ (ms : List String) (s s' : RunState),
      runModes oracle e qid ms s = (s', true) →
      s'.results = s.results ++ ms.map (fun m => ResultEntry.mk e qid m) ∧
      s'.tableExists = s.tableExists ∧ s'.cleanupRan = s.cleanupRan := by
  intro ms
  induction ms with
  | nil =>
    intro s s' h
    cases h
    simp
  | cons m rest ih =>
    intro s s' h
    unfold runModes at h
    cases ho : oracle (.execQuery e qid m) with
    | true => simp [step, ho] at h
    | false =>
      simp only [step, ho, Bool.false_eq_true, if_false] at h
      obtain ⟨h1, h2, h3⟩ := ih (applyAction (.execQuery e qid m) s) s' h
      refine ⟨?_, h2, h3⟩
      rw [h1]
      simp [applyAction]

theorem runQueries_ok {oracle : Action → Bool} {e : String} :
    ∀ (qs : List Query) (modes : List String) (s s' : RunState),
      runQueries oracle e qs modes s = (s', true) →
      s'.results = s.results ++
        qs.flatMap (fun q => modes.map (fun m => ResultEntry.mk e q.id m)) ∧
      s'.tableExists = s.tableExists ∧ s'.cleanupRan = s.cleanupRan := by
  intro qs
  induction qs with
  | nil =>
    intro modes s s' h
    cases h
    simp
  | cons q rest ih =>
    intro modes s s' h
    unfold runQueries at h
    cases hm : runModes oracle e q.id modes s with
    | mk s1 ok1 =>
      rw [hm] at h
      cases ok1 with
      | false => cases h
      | true =>
        obtain ⟨h1, h2, h3⟩ := runModes_ok modes s s1 hm
        obtain ⟨h4, h5, h6⟩ := ih modes s1 s' h
        refine ⟨?_, by rw [h5, h2], by rw [h6, h3]⟩
        rw [h4, h1]
        simp [List.flatMap_cons]

theorem runEngines_ok {oracle : Action → Bool} :
    ∀ (es : List String) (qs : List Query) (modes : List String) (s s' : RunState),
      runEngines oracle es qs modes s = (s', true) →
      s'.results = s.results ++
        es.flatMap (fun e => qs.flatMap (fun q =>
          modes.map (fun m => ResultEntry.mk e q.id m))) ∧
      s'.tableExists = s.tableExists ∧ s'.cleanupRan = s.cleanupRan := by
  intro es
  induction es with
  | nil =>
    intro qs modes s s' h
    cases h
    simp
  | cons e rest ih =>
    intro qs modes s s' h
    unfold runEngines at h
    cases hb : oracle (.buildIndex e) with
    | true => simp [step, hb] at h
    | false =>
      simp only [step, hb, Bool.false_eq_true, if_false] at h
      have hba : applyAction (.buildIndex e) s = s := rfl
      rw [hba] at h
      cases hq : runQueries oracle e qs modes s with
      | mk s1 ok1 =>
        rw [hq] at h
        cases ok1 with
        | false => cases h
        | true =>
          obtain ⟨h1, h2, h3⟩ := runQueries_ok qs modes s s1 hq
          obtain ⟨h4, h5, h6⟩ := ih qs modes s1 s' h
          refine ⟨?_, by rw [h5, h2], by rw [h6, h3]⟩
          rw [h4, h1]
          simp [List.flatMap_cons]

/-- Queries used by the concrete lifecycle witnesses. -/
def q1Demo : Query := { id := "q1", sql := "s1", description := "d1" }

def q2Demo : Query := { id := "q2", sql := "s2", description := "d2" }

/-- C6: a successful `run()` returns all btree measurements strictly
before all smol measurements, and within each engine the queries appear
in declaration order (each query's entries grouped over the configured
cache modes, also in order). -/
theorem run_results_order (oracle : Action → Bool) (queries : List Query)
    (modes : List String) (rs : List ResultEntry)
    (h : runResults oracle queries modes = some rs) :
    rs = (queries.flatMap fun q => modes.map fun m => ResultEntry.mk "btree" q.id m)
      ++ (queries.flatMap fun q => modes.map fun m => ResultEntry.mk "smol" q.id m) := by
  unfold runResults at h
  split at h
  case _ sfin hrun =>
    have hrs : rs = sfin.results := (Option.some.inj h).symm
    unfold WorkloadBase.run at hrun
    split at hrun
    case _ s1 hgen =>
      split at hrun
      case _ s2 heng =>
        -- cleanup does not touch the result list
        have hclean : sfin.results = s2.results := by
          unfold step at hrun
          split at hrun
          · exact absurd (congrArg Prod.snd hrun) (by simp)
          · cases hrun
            rfl
        have hs1 : s1.results = initState.results := by
          unfold step at hgen
          split at hgen
          · exact absurd (congrArg Prod.snd hgen) (by simp)
          · cases hgen
            rfl
        obtain ⟨h1, _, _⟩ := runEngines_ok ["btree", "smol"] queries modes s1 s2 heng
        rw [hrs, hclean, h1, hs1]
        simp [initState, List.flatMap_cons]
      case _ s2 heng =>
        exact absurd (congrArg Prod.snd hrun) (by simp)
    case _ s1 hgen =>
      exact absurd (congrArg Prod.snd hrun) (by simp)
  case _ sfin hrun =>
    cases h

/-- Witness for C6: a no-failure run over two queries and one cache mode. -/
theorem run_results_order_witness :
    runResults (fun _ => false) [q1Demo, q2Demo] ["hot"] =
      some [ResultEntry.mk "btree" "q1" "hot", ResultEntry.mk "btree" "q2" "hot",
            ResultEntry.mk "smol" "q1" "hot", ResultEntry.mk "smol" "q2" "hot"] ∧
    [ResultEntry.mk "btree" "q1" "hot", ResultEntry.mk "btree" "q2" "hot",
     ResultEntry.mk "smol" "q1" "hot", ResultEntry.mk "smol" "q2" "hot"] =
      ([q1Demo, q2Demo].flatMap fun q => ["hot"].map fun m => ResultEntry.mk "btree" q.id m)
        ++ ([q1Demo, q2Demo].flatMap fun q => ["hot"].map fun m => ResultEntry.mk "smol" q.id m) :=
  ⟨rfl,
   run_results_order (fun _ => false) [q1Demo, q2Demo] ["hot"]
     [ResultEntry.mk "btree" "q1" "hot", ResultEntry.mk "btree" "q2" "hot",
      ResultEntry.mk "smol" "q1" "hot", ResultEntry.mk "smol" "q2" "hot"] rfl⟩

/-- C5 (amended): `cleanup()` runs exactly on the lifecycle paths where no
earlier step raised; after such a run the workload's table no longer
exists.  (When an earlier step raises, `run()` has no `try`/`finally`, so
the exception propagates without the DROP, and the Runner's per-workload
handler does not drop the table either — see the counterexample.) -/
theorem run_success_cleanup (oracle : Action → Bool) (queries : List Query)
    (modes : List String)
    (h : (WorkloadBase.run oracle queries modes initState).2 = true) :
    (WorkloadBase.run oracle queries modes initState).1.cleanupRan = true ∧
    (WorkloadBase.run oracle queries modes initState).1.tableExists = false := by
  cases hrun : WorkloadBase.run oracle queries modes initState with
  | mk sfin ok =>
    rw [hrun] at h
    simp only at h
    subst h
    unfold WorkloadBase.run at hrun
    split at hrun
    case _ s1 hgen =>
      split at hrun
      case _ s2 heng =>
        unfold step at hrun
        split at hrun
        · exact absurd (congrArg Prod.snd hrun) (by simp)
        · cases hrun
          exact ⟨rfl, rfl⟩
      case _ s2 heng =>
        exact absurd (congrArg Prod.snd hrun) (by simp)
    case _ s1 hgen =>
      exact absurd (congrArg Prod.snd hrun) (by simp)

/-- Witness for C5's amended theorem: a run where no step raises. -/
theorem run_success_cleanup_witness :
    (WorkloadBase.run (fun _ => false) [q1Demo] ["hot"] initState).2 = true ∧
    ((WorkloadBase.run (fun _ => false) [q1Demo] ["hot"] initState).1.cleanupRan = true ∧
     (WorkloadBase.run (fun _ => false) [q1Demo] ["hot"] initState).1.tableExists = false) :=
  ⟨rfl, run_success_cleanup (fun _ => false) [q1Demo] ["hot"] rfl⟩

/-- An oracle where the btree index build raises (e.g. the CREATE INDEX
statement fails) and every other database call succeeds. -/
def btreeBuildFails : Action → Bool :=
  fun a =>
    match a with
    | .buildIndex "btree" => true
    | _ => false

/-- C5 (counterexample): when the btree index build raises after data
generation, `run()` aborts without executing `cleanup()` and the
workload's table still exists afterwards — the claim's "cleanup is
executed even when an earlier lifecycle step raised, so the table does
not exist" is false on this input. -/
theorem run_cleanup_counterexample :
    (WorkloadBase.run btreeBuildFails [q1Demo] ["hot"] initState).2 = false ∧
    (WorkloadBase.run btreeBuildFails [q1Demo] ["hot"] initState).1.cleanupRan = false ∧
    (WorkloadBase.run btreeBuildFails [q1Demo] ["hot"] initState).1.tableExists = true :=
  ⟨rfl, rfl, rfl⟩

theorem calc_percentiles_cons (v : ℚ) (vs : List ℚ) :
    calculate_percentiles (v :: vs) =
      { p50 := (sortedVals (v :: vs)).getD (pctIndex (v :: vs).length 50) 0
      , p95 := if (v :: vs).length > 1 then
                 (sortedVals (v :: vs)).getD (pctIndex (v :: vs).length 95) 0
               else (sortedVals (v :: vs)).getD ((sortedVals (v :: vs)).length - 1) 0
      , p99 := if (v :: vs).length > 2 then
                 (sortedVals (v :: vs)).getD (pctIndex (v :: vs).length 99) 0
               else (sortedVals (v :: vs)).getD ((sortedVals (v :: vs)).length - 1) 0
      , avg := (v :: vs).sum / (((v :: vs).length : ℕ) : ℚ)
      , min := listMin (v :: vs)
      , max := listMax (v :: vs) } := by
  simp [calculate_percentiles]

/-- C3: for every non-empty sample list, the percentile record satisfies
`p50 ≤ p95 ≤ p99 ≤ max` and `min ≤ avg ≤ max`. -/
theorem percentile_order (values : List ℚ) (hne : values ≠ []) :
    ((calculate_percentiles values).p50 ≤ (calculate_percentiles values).p95 ∧
     (calculate_percentiles values).p95 ≤ (calculate_percentiles values).p99 ∧
     (calculate_percentiles values).p99 ≤ (calculate_percentiles values).max) ∧
    ((calculate_percentiles values).min ≤ (calculate_percentiles values).avg ∧
     (calculate_percentiles values).avg ≤ (calculate_percentiles values).max) := by
  match values, hne with
  | v :: vs, _ =>
    have hn : 1 ≤ (v :: vs).length := by simp
    have hlen : (sortedVals (v :: vs)).length = (v :: vs).length := length_sortedVals _
    rw [calc_percentiles_cons]
    dsimp only
    constructor
    · by_cases h2 : (v :: vs).length > 2
      · have h1 : (v :: vs).length > 1 := by omega
        rw [if_pos h1, if_pos h2]
        refine ⟨?_, ?_, ?_⟩
        · exact sortedVals_getD_mono _ (pctIndex_mono (by norm_num))
            (by rw [hlen]; exact pctIndex_lt 95 hn (by norm_num))
        · exact sortedVals_getD_mono _ (pctIndex_mono (by norm_num))
            (by rw [hlen]; exact pctIndex_lt 99 hn (by norm_num))
        · exact le_listMax (mem_of_mem_sortedVals
            (getD_mem_of_lt (by rw [hlen]; exact pctIndex_lt 99 hn (by norm_num))))
      · by_cases h1 : (v :: vs).length > 1
        · have hn2 : (v :: vs).length = 2 := by omega
          rw [if_pos h1, if_neg h2]
          refine ⟨?_, ?_, ?_⟩
          · exact sortedVals_getD_mono _ (pctIndex_mono (by norm_num))
              (by rw [hlen]; exact pctIndex_lt 95 hn (by norm_num))
          · exact sortedVals_getD_mono _ (by rw [hlen, hn2]; decide)
              (by rw [hlen, hn2]; decide)
          · exact le_listMax (mem_of_mem_sortedVals
              (getD_mem_of_lt (by rw [hlen, hn2]; decide)))
        · have hn1 : (v :: vs).length = 1 := by omega
          rw [if_neg h1, if_neg h2]
          refine ⟨?_, le_refl _, ?_⟩
          · exact sortedVals_getD_mono _ (by rw [hlen, hn1]; decide)
              (by rw [hlen, hn1]; decide)
          · exact le_listMax (mem_of_mem_sortedVals
              (getD_mem_of_lt (by rw [hlen, hn1]; decide)))
    · exact ⟨listMin_le_avg _ (List.cons_ne_nil v vs),
        avg_le_listMax _ (List.cons_ne_nil v vs)⟩

/-- Witness for C3 at the concrete list `[3, 1, 2]`. -/
theorem percentile_order_witness :
    ([3, 1, 2] : List ℚ) ≠ [] ∧
    (((calculate_percentiles [3, 1, 2]).p50 ≤ (calculate_percentiles [3, 1, 2]).p95 ∧
      (calculate_percentiles [3, 1, 2]).p95 ≤ (calculate_percentiles [3, 1, 2]).p99 ∧
      (calculate_percentiles [3, 1, 2]).p99 ≤ (calculate_percentiles [3, 1, 2]).max) ∧
     ((calculate_percentiles [3, 1, 2]).min ≤ (calculate_percentiles [3, 1, 2]).avg ∧
      (calculate_percentiles [3, 1, 2]).avg ≤ (calculate_percentiles [3, 1, 2]).max)) :=
  ⟨List.cons_ne_nil 3 [1, 2], percentile_order [3, 1, 2] (List.cons_ne_nil 3 [1, 2])⟩

end SmolBench
